import Mathlib

/-!
Shallow embedding of src/05-objects-tasks.js: the Rectangle constructor,
the fromJSON helper and the cssSelectorBuilder object with its ordering
and singleton validation, together with theorems settling the claims
about them.

Fidelity notes on the selector builder embedding:
the JS source creates every new builder state with
Object.create(cssSelectorBuilder), so the new object's prototype is the
BASE builder (string empty, elementNum 0, idNum 0, pseodoEl 0, no order
property).  Each method writes onto the fresh object only its own
singleton counter (if any), order and string; every other field of the
result is therefore inherited from the base, i.e. 0 (and order is absent,
modelled as none, on the base and on combine results).  The methods never
assign to the receiver, only to the freshly created object, so the
embedding is a pure function from the receiver state to the result.
Throwing is modelled with Except.error carrying the error kind; the two
thrown messages are recorded by SelError.message.
-/

namespace ObjTasks

/-- The two error kinds thrown by the selector builder. -/
inductive SelError where
  | duplicatePart
  | orderViolation
  deriving DecidableEq

/-- The exact message text thrown by the source for each error kind. -/
def SelError.message : SelError → String
  | .duplicatePart =>
      "Element, id and pseudo-element should not occur more then one time inside the selector"
  | .orderViolation =>
      "Selector parts should be arranged in the following order: element, id, class, attribute, pseudo-class, pseudo-element"

/-- A builder state: the observable own-or-inherited fields of a
cssSelectorBuilder object.  order is none when the object has no order
property (the base builder and combine results). -/
structure SelState where
  string : String
  order : Option Nat
  elementNum : Nat
  idNum : Nat
  pseodoEl : Nat
  deriving DecidableEq

/-- The base builder object: string empty, counters 0, no order. -/
def cssSelectorBuilder : SelState :=
  ⟨"", none, 0, 0, 0⟩

/-- Embeds checkOrder: throws the ordering error when this.order > num;
with no order property the JS comparison undefined > num is false. -/
def checkOrder (s : SelState) (num : Nat) : Except SelError Unit :=
  match s.order with
  | some o => if o > num then .error .orderViolation else .ok ()
  | none => .ok ()

/-- Embeds element(value): bumps the element counter, checks order at
rank 1, rejects a second element, appends value verbatim. -/
def element (s : SelState) (value : String) : Except SelError SelState :=
  let elementNum := s.elementNum + 1
  match checkOrder s 1 with
  | .error e => .error e
  | .ok _ =>
      if elementNum > 1 then .error .duplicatePart
      else .ok ⟨s.string ++ value, some 1, elementNum, 0, 0⟩

/-- Embeds id(value): bumps the id counter, checks order at rank 2,
rejects a second id, appends the value with prefix sharp. -/
def id (s : SelState) (value : String) : Except SelError SelState :=
  let idNum := s.idNum + 1
  match checkOrder s 2 with
  | .error e => .error e
  | .ok _ =>
      if idNum > 1 then .error .duplicatePart
      else .ok ⟨s.string ++ "#" ++ value, some 2, 0, idNum, 0⟩

/-- Embeds class(value): checks order at rank 3, appends a dot and the
value.  Named cls because class is a Lean keyword. -/
def cls (s : SelState) (value : String) : Except SelError SelState :=
  match checkOrder s 3 with
  | .error e => .error e
  | .ok _ => .ok ⟨s.string ++ "." ++ value, some 3, 0, 0, 0⟩

/-- Embeds attr(value): checks order at rank 4, appends the value in
square brackets. -/
def attr (s : SelState) (value : String) : Except SelError SelState :=
  match checkOrder s 4 with
  | .error e => .error e
  | .ok _ => .ok ⟨s.string ++ "[" ++ value ++ "]", some 4, 0, 0, 0⟩

/-- Embeds pseudoClass(value): checks order at rank 5, appends a colon
and the value. -/
def pseudoClass (s : SelState) (value : String) : Except SelError SelState :=
  match checkOrder s 5 with
  | .error e => .error e
  | .ok _ => .ok ⟨s.string ++ ":" ++ value, some 5, 0, 0, 0⟩

/-- Embeds pseudoElement(value): bumps the pseudo-element counter,
checks order at rank 6, rejects a second pseudo-element, appends a
double colon and the value. -/
def pseudoElement (s : SelState) (value : String) : Except SelError SelState :=
  let pseodoEl := s.pseodoEl + 1
  match checkOrder s 6 with
  | .error e => .error e
  | .ok _ =>
      if pseodoEl > 1 then .error .duplicatePart
      else .ok ⟨s.string ++ "::" ++ value, some 6, 0, 0, pseodoEl⟩

/-- Embeds combine(selector1, combinator, selector2): a fresh object
whose only own field is the joined string; order and counters are
inherited from the base. -/
def combine (selector1 : SelState) (combinator : String) (selector2 : SelState) : SelState :=
  ⟨selector1.string ++ " " ++ combinator ++ " " ++ selector2.string, none, 0, 0, 0⟩

/-- Embeds stringify(): returns the accumulated string. -/
def stringify (s : SelState) : String :=
  s.string

/-- One part call of the builder, tagged by kind with its value. -/
inductive Part where
  | element (value : String)
  | id (value : String)
  | cls (value : String)
  | attr (value : String)
  | pseudoClass (value : String)
  | pseudoElement (value : String)
  deriving DecidableEq

/-- Dispatches one part call to the corresponding builder method. -/
def applyPart (s : SelState) : Part → Except SelError SelState
  | .element v => element s v
  | .id v => id s v
  | .cls v => cls s v
  | .attr v => attr s v
  | .pseudoClass v => pseudoClass s v
  | .pseudoElement v => pseudoElement s v

/-- The rank of a part kind, as used by the order check. -/
def rank : Part → Nat
  | .element _ => 1
  | .id _ => 2
  | .cls _ => 3
  | .attr _ => 4
  | .pseudoClass _ => 5
  | .pseudoElement _ => 6

/-- The text fragment a successful part call appends. -/
def partText : Part → String
  | .element v => v
  | .id v => "#" ++ v
  | .cls v => "." ++ v
  | .attr v => "[" ++ v ++ "]"
  | .pseudoClass v => ":" ++ v
  | .pseudoElement v => "::" ++ v

/-- Runs a list of part calls left to right, stopping at the first
thrown error. -/
def runParts (s : SelState) : List Part → Except SelError SelState
  | [] => .ok s
  | p :: ps =>
      match applyPart s p with
      | .ok t => runParts t ps
      | .error e => .error e

/-- The concatenation of the fragments of a list of parts. -/
def selText : List Part → String
  | [] => ""
  | p :: ps => partText p ++ selText ps

/-- The rank of the last part of a list, none for the empty list. -/
def lastRank : List Part → Option Nat
  | [] => none
  | [p] => some (rank p)
  | _ :: p :: ps => lastRank (p :: ps)

/-- Whether some part of the list has the given rank. -/
def hasRank (n : Nat) (ps : List Part) : Bool :=
  ps.any fun p => rank p == n

/-- Whether the ranks of the list are non-decreasing left to right. -/
def ranksMono : List Part → Bool
  | [] => true
  | [_] => true
  | p :: q :: ps => decide (rank p ≤ rank q) && ranksMono (q :: ps)

/-- How many parts of the list have the given rank. -/
def countRank (n : Nat) (ps : List Part) : Nat :=
  ps.countP fun p => rank p == n

/-- Whether each singleton kind (ranks 1, 2 and 6) occurs at most once. -/
def singletonsOK (ps : List Part) : Bool :=
  decide (countRank 1 ps ≤ 1) && decide (countRank 2 ps ≤ 1) && decide (countRank 6 ps ≤ 1)

/-- Whether the order check would accept a part of rank n on state s. -/
def orderFits (s : SelState) (n : Nat) : Bool :=
  match s.order with
  | none => true
  | some r => decide (r ≤ n)

/-- Whether a part call is accepted on state s: the order check passes
and, for a singleton kind, its counter is still 0. -/
def fits (s : SelState) : Part → Bool
  | .element _ => orderFits s 1 && s.elementNum == 0
  | .id _ => orderFits s 2 && s.idNum == 0
  | .cls _ => orderFits s 3
  | .attr _ => orderFits s 4
  | .pseudoClass _ => orderFits s 5
  | .pseudoElement _ => orderFits s 6 && s.pseodoEl == 0

/-- Whether the first part of the list, if any, is accepted on s. -/
def headOK (s : SelState) : List Part → Bool
  | [] => true
  | p :: _ => fits s p

/-- Embeds the Rectangle constructor: stores width and height. -/
structure Rectangle where
  width : Int
  height : Int
  deriving DecidableEq

/-- Embeds getArea(): reads the current width and height fields at call
time (the arrow function closes over this, not over the values). -/
def Rectangle.getArea (r : Rectangle) : Int :=
  r.width * r.height

/-- A later assignment to the width field of a rectangle object. -/
def Rectangle.setWidth (r : Rectangle) (w : Int) : Rectangle :=
  ⟨w, r.height⟩

/-- A later assignment to the height field of a rectangle object. -/
def Rectangle.setHeight (r : Rectangle) (h : Int) : Rectangle :=
  ⟨r.width, h⟩

/-- A JS object as fromJSON produces it: its own data fields and the
prototype attached by Object.setPrototypeOf. -/
structure JsObject (α : Type) where
  own : List (String × α)
  proto : List (String × α)
  deriving DecidableEq

/-- JS property lookup on such an object: own fields first, then the
prototype. -/
def JsObject.get {α : Type} (o : JsObject α) (k : String) : Option α :=
  match o.own.lookup k with
  | some v => some v
  | none => o.proto.lookup k

/-- Embeds fromJSON(proto, json).  The host JSON.parse builtin is not
repository code, so it is abstracted as the parameter parse, returning
the own fields of the parsed object or a parse error; the spread copies
exactly those fields and Object.setPrototypeOf attaches proto. -/
def fromJSON {α : Type} (parse : String → Except String (List (String × α)))
    (proto : List (String × α)) (json : String) : Except String (JsObject α) :=
  match parse json with
  | .ok fields => .ok ⟨fields, proto⟩
  | .error e => .error e

/-- The order check succeeds exactly when the state's order, if set, is
at most the incoming rank. -/
theorem checkOrder_ok_iff (s : SelState) (n : Nat) :
    checkOrder s n = .ok () ↔ ∀ r, s.order = some r → r ≤ n := by
  unfold checkOrder
  cases ho : s.order with
  | none => simp
  | some o =>
      by_cases hgt : o > n
      · simp only [if_pos hgt]
        constructor
        · intro h; exact Except.noConfusion h
        · intro h; exact absurd (h o rfl) (by omega)
      · simp only [if_neg hgt]
        constructor
        · intro _ r hr
          have := Option.some.inj hr
          omega
        · intro _; trivial

/-- The order check throws the ordering error when the state's order
exceeds the incoming rank. -/
theorem checkOrder_error {s : SelState} {r n : Nat} (h : s.order = some r) (hn : n < r) :
    checkOrder s n = .error .orderViolation := by
  simp [checkOrder, h, hn]

/-- Shape of every successful part call: the result's order is the rank
of the part, the fragment is appended, only the part's own singleton
counter carries over (bumped), all other counters reset to 0, the order
check passed, and for a singleton part the receiver's counter was 0. -/
theorem applyPart_ok {s t : SelState} {p : Part} (h : applyPart s p = .ok t) :
    t.order = some (rank p) ∧
    t.string = s.string ++ partText p ∧
    t.elementNum = (if rank p = 1 then s.elementNum + 1 else 0) ∧
    t.idNum = (if rank p = 2 then s.idNum + 1 else 0) ∧
    t.pseodoEl = (if rank p = 6 then s.pseodoEl + 1 else 0) ∧
    (∀ r, s.order = some r → r ≤ rank p) ∧
    (rank p = 1 → s.elementNum = 0) ∧
    (rank p = 2 → s.idNum = 0) ∧
    (rank p = 6 → s.pseodoEl = 0) := by
  cases p with
  | element v =>
      rcases hc : checkOrder s 1 with e | u
      · simp [applyPart, element, hc] at h
      · cases u
        simp only [applyPart, element, hc] at h
        by_cases hgt : s.elementNum + 1 > 1
        · rw [if_pos hgt] at h; exact Except.noConfusion h
        · rw [if_neg hgt] at h
          injection h with h
          subst h
          refine ⟨rfl, rfl, by simp [rank], by simp [rank], by simp [rank],
            fun r hr => (checkOrder_ok_iff s 1).1 hc r hr,
            fun _ => by omega, by simp [rank], by simp [rank]⟩
  | id v =>
      rcases hc : checkOrder s 2 with e | u
      · simp [applyPart, ObjTasks.id, hc] at h
      · cases u
        simp only [applyPart, ObjTasks.id, hc] at h
        by_cases hgt : s.idNum + 1 > 1
        · rw [if_pos hgt] at h; exact Except.noConfusion h
        · rw [if_neg hgt] at h
          injection h with h
          subst h
          refine ⟨rfl, by simp [partText, String.append_assoc], by simp [rank], by simp [rank],
            by simp [rank], fun r hr => (checkOrder_ok_iff s 2).1 hc r hr,
            by simp [rank], fun _ => by omega, by simp [rank]⟩
  | cls v =>
      rcases hc : checkOrder s 3 with e | u
      · simp [applyPart, cls, hc] at h
      · cases u
        simp only [applyPart, cls, hc] at h
        injection h with h
        subst h
        refine ⟨rfl, by simp [partText, String.append_assoc], by simp [rank], by simp [rank],
          by simp [rank], fun r hr => (checkOrder_ok_iff s 3).1 hc r hr,
          by simp [rank], by simp [rank], by simp [rank]⟩
  | attr v =>
      rcases hc : checkOrder s 4 with e | u
      · simp [applyPart, attr, hc] at h
      · cases u
        simp only [applyPart, attr, hc] at h
        injection h with h
        subst h
        refine ⟨rfl, by simp [partText, String.append_assoc], by simp [rank], by simp [rank],
          by simp [rank], fun r hr => (checkOrder_ok_iff s 4).1 hc r hr,
          by simp [rank], by simp [rank], by simp [rank]⟩
  | pseudoClass v =>
      rcases hc : checkOrder s 5 with e | u
      · simp [applyPart, pseudoClass, hc] at h
      · cases u
        simp only [applyPart, pseudoClass, hc] at h
        injection h with h
        subst h
        refine ⟨rfl, by simp [partText, String.append_assoc], by simp [rank], by simp [rank],
          by simp [rank], fun r hr => (checkOrder_ok_iff s 5).1 hc r hr,
          by simp [rank], by simp [rank], by simp [rank]⟩
  | pseudoElement v =>
      rcases hc : checkOrder s 6 with e | u
      · simp [applyPart, pseudoElement, hc] at h
      · cases u
        simp only [applyPart, pseudoElement, hc] at h
        by_cases hgt : s.pseodoEl + 1 > 1
        · rw [if_pos hgt] at h; exact Except.noConfusion h
        · rw [if_neg hgt] at h
          injection h with h
          subst h
          refine ⟨rfl, by simp [partText, String.append_assoc], by simp [rank], by simp [rank],
            by simp [rank], fun r hr => (checkOrder_ok_iff s 6).1 hc r hr,
            by simp [rank], by simp [rank], fun _ => by omega⟩

/-- A successful run on a nonempty list factors into a first successful
call and a successful run of the tail. -/
theorem runParts_cons_ok {s t : SelState} {p : Part} {ps : List Part}
    (h : runParts s (p :: ps) = .ok t) :
    ∃ u, applyPart s p = .ok u ∧ runParts u ps = .ok t := by
  rcases hc : applyPart s p with e | u
  · simp [runParts, hc] at h
  · refine ⟨u, rfl, ?_⟩
    simpa [runParts, hc] using h

/-- A successful run appends exactly the fragments of its parts. -/
theorem runParts_string : ∀ (ps : List Part) (s t : SelState),
    runParts s ps = .ok t → t.string = s.string ++ selText ps := by
  intro ps
  induction ps with
  | nil =>
      intro s t h
      simp only [runParts] at h
      injection h with h
      subst h
      simp [selText]
  | cons p ps ih =>
      intro s t h
      obtain ⟨u, hu, hr⟩ := runParts_cons_ok h
      simp only [selText]
      rw [ih u t hr, (applyPart_ok hu).2.1, String.append_assoc]

/-- The order field is non-decreasing along every successful run. -/
theorem runParts_mono : ∀ (ps : List Part) (s t : SelState) (r : Nat),
    runParts s ps = .ok t → s.order = some r → ∃ q, t.order = some q ∧ r ≤ q := by
  intro ps
  induction ps with
  | nil =>
      intro s t r h hs
      simp only [runParts] at h
      injection h with h
      subst h
      exact ⟨r, hs, le_refl r⟩
  | cons p ps ih =>
      intro s t r h hs
      obtain ⟨u, hu, hr⟩ := runParts_cons_ok h
      obtain ⟨q, hq, hle⟩ := ih u t (rank p) hr (applyPart_ok hu).1
      exact ⟨q, hq, le_trans ((applyPart_ok hu).2.2.2.2.2.1 r hs) hle⟩

/-- After a successful nonempty run the order is the rank of the last
part, and each singleton counter is 1 exactly when the last part has
that singleton's rank, 0 otherwise. -/
theorem runParts_last : ∀ (ps : List Part) (s t : SelState) (n : Nat),
    runParts s ps = .ok t → lastRank ps = some n →
    t.order = some n ∧
    t.elementNum = (if n = 1 then 1 else 0) ∧
    t.idNum = (if n = 2 then 1 else 0) ∧
    t.pseodoEl = (if n = 6 then 1 else 0) := by
  intro ps
  induction ps with
  | nil =>
      intro s t n h hl
      simp [lastRank] at hl
  | cons p ps ih =>
      intro s t n h hl
      obtain ⟨u, hu, hr⟩ := runParts_cons_ok h
      cases ps with
      | nil =>
          simp only [lastRank] at hl
          injection hl with hl
          subst hl
          simp only [runParts] at hr
          injection hr with hr
          subst hr
          obtain ⟨h1, _, h3, h4, h5, _, h7, h8, h9⟩ := applyPart_ok hu
          refine ⟨h1, ?_, ?_, ?_⟩
          · rw [h3]
            by_cases e1 : rank p = 1
            · rw [if_pos e1, if_pos e1, h7 e1]
            · rw [if_neg e1, if_neg e1]
          · rw [h4]
            by_cases e2 : rank p = 2
            · rw [if_pos e2, if_pos e2, h8 e2]
            · rw [if_neg e2, if_neg e2]
          · rw [h5]
            by_cases e6 : rank p = 6
            · rw [if_pos e6, if_pos e6, h9 e6]
            · rw [if_neg e6, if_neg e6]
      | cons q ps' =>
          have hl' : lastRank (q :: ps') = some n := by simpa [lastRank] using hl
          exact ih u t n hr hl'

/-- Every part kind has rank at least 1. -/
theorem rank_pos (p : Part) : 1 ≤ rank p := by
  cases p <;> simp [rank]

/-- Every part kind has rank at most 6. -/
theorem rank_le_six (p : Part) : rank p ≤ 6 := by
  cases p <;> simp [rank]

/-- Any part call of rank below the state's order throws the ordering
error, whatever the counters hold: every method runs checkOrder before
its duplicate test. -/
theorem applyPart_orderViolation {s : SelState} {r : Nat} (p : Part)
    (h : s.order = some r) (hr : rank p < r) : applyPart s p = .error .orderViolation := by
  cases p with
  | element v =>
      have hc : checkOrder s 1 = .error .orderViolation :=
        checkOrder_error h (by simpa [rank] using hr)
      simp [applyPart, element, hc]
  | id v =>
      have hc : checkOrder s 2 = .error .orderViolation :=
        checkOrder_error h (by simpa [rank] using hr)
      simp [applyPart, ObjTasks.id, hc]
  | cls v =>
      have hc : checkOrder s 3 = .error .orderViolation :=
        checkOrder_error h (by simpa [rank] using hr)
      simp [applyPart, cls, hc]
  | attr v =>
      have hc : checkOrder s 4 = .error .orderViolation :=
        checkOrder_error h (by simpa [rank] using hr)
      simp [applyPart, attr, hc]
  | pseudoClass v =>
      have hc : checkOrder s 5 = .error .orderViolation :=
        checkOrder_error h (by simpa [rank] using hr)
      simp [applyPart, pseudoClass, hc]
  | pseudoElement v =>
      have hc : checkOrder s 6 = .error .orderViolation :=
        checkOrder_error h (by simpa [rank] using hr)
      simp [applyPart, pseudoElement, hc]

/-- A second element on a state whose counter is already positive throws
the duplicate error once the order check passes. -/
theorem element_dup {s : SelState} (v : String)
    (hord : checkOrder s 1 = .ok ()) (hc : 1 ≤ s.elementNum) :
    element s v = .error .duplicatePart := by
  have hgt : s.elementNum + 1 > 1 := by omega
  simp [element, hord, hgt]

/-- A second id on a state whose counter is already positive throws the
duplicate error once the order check passes. -/
theorem id_dup {s : SelState} (v : String)
    (hord : checkOrder s 2 = .ok ()) (hc : 1 ≤ s.idNum) :
    ObjTasks.id s v = .error .duplicatePart := by
  have hgt : s.idNum + 1 > 1 := by omega
  simp [ObjTasks.id, hord, hgt]

/-- A second pseudo-element on a state whose counter is already positive
throws the duplicate error once the order check passes. -/
theorem pseudoElement_dup {s : SelState} (v : String)
    (hord : checkOrder s 6 = .ok ()) (hc : 1 ≤ s.pseodoEl) :
    pseudoElement s v = .error .duplicatePart := by
  have hgt : s.pseodoEl + 1 > 1 := by omega
  simp [pseudoElement, hord, hgt]

/-- After a successful run containing an element call, either the
element was the last part, or the order has climbed to at least 2
(because no other kind has rank 1, and a repeated element right after
the first is rejected). -/
theorem runParts_high_one : ∀ (ps : List Part) (s t : SelState),
    runParts s ps = .ok t → hasRank 1 ps = true →
    lastRank ps = some 1 ∨ ∃ r, t.order = some r ∧ 2 ≤ r := by
  intro ps
  induction ps with
  | nil => intro s t h hh; simp [hasRank] at hh
  | cons p ps ih =>
      intro s t h hh
      obtain ⟨u, hu, hr⟩ := runParts_cons_ok h
      by_cases hp : rank p = 1
      · cases ps with
        | nil => left; simp [lastRank, hp]
        | cons q ps' =>
            right
            obtain ⟨w, hw, hrun⟩ := runParts_cons_ok hr
            have huel : 1 ≤ u.elementNum := by
              have he := (applyPart_ok hu).2.2.1
              rw [he, if_pos hp]
              omega
            have hq1 : rank q ≠ 1 := by
              intro h1
              have hz := (applyPart_ok hw).2.2.2.2.2.2.1 h1
              omega
            have hq2 : 2 ≤ rank q := by
              have := rank_pos q
              omega
            obtain ⟨r', hr', hle⟩ :=
              runParts_mono ps' w t (rank q) hrun (applyPart_ok hw).1
            exact ⟨r', hr', le_trans hq2 hle⟩
      · have hh' : hasRank 1 ps = true := by
          simp only [hasRank, List.any_cons, Bool.or_eq_true, beq_iff_eq] at hh ⊢
          rcases hh with h1 | h2
          · exact absurd h1 hp
          · exact h2
        have hne : ps ≠ [] := by
          intro heq
          rw [heq] at hh'
          simp [hasRank] at hh'
        rcases ih u t hr hh' with hL | hR
        · left
          cases ps with
          | nil => exact absurd rfl hne
          | cons q ps' => simpa [lastRank] using hL
        · right; exact hR

/-- After a successful run containing an id call, either the id was the
last part, or the order has climbed to at least 3 (an element cannot
follow the id, and a repeated id is rejected). -/
theorem runParts_high_two : ∀ (ps : List Part) (s t : SelState),
    runParts s ps = .ok t → hasRank 2 ps = true →
    lastRank ps = some 2 ∨ ∃ r, t.order = some r ∧ 3 ≤ r := by
  intro ps
  induction ps with
  | nil => intro s t h hh; simp [hasRank] at hh
  | cons p ps ih =>
      intro s t h hh
      obtain ⟨u, hu, hr⟩ := runParts_cons_ok h
      by_cases hp : rank p = 2
      · cases ps with
        | nil => left; simp [lastRank, hp]
        | cons q ps' =>
            right
            obtain ⟨w, hw, hrun⟩ := runParts_cons_ok hr
            have huid : 1 ≤ u.idNum := by
              have he := (applyPart_ok hu).2.2.2.1
              rw [he, if_pos hp]
              omega
            have huord : u.order = some 2 := by
              have := (applyPart_ok hu).1
              rw [this, hp]
            have hq2 : rank q ≠ 2 := by
              intro h2
              have hz := (applyPart_ok hw).2.2.2.2.2.2.2.1 h2
              omega
            have hqge : 2 ≤ rank q := (applyPart_ok hw).2.2.2.2.2.1 2 huord
            have hq3 : 3 ≤ rank q := by omega
            obtain ⟨r', hr', hle⟩ :=
              runParts_mono ps' w t (rank q) hrun (applyPart_ok hw).1
            exact ⟨r', hr', le_trans hq3 hle⟩
      · have hh' : hasRank 2 ps = true := by
          simp only [hasRank, List.any_cons, Bool.or_eq_true, beq_iff_eq] at hh ⊢
          rcases hh with h1 | h2
          · exact absurd h1 hp
          · exact h2
        have hne : ps ≠ [] := by
          intro heq
          rw [heq] at hh'
          simp [hasRank] at hh'
        rcases ih u t hr hh' with hL | hR
        · left
          cases ps with
          | nil => exact absurd rfl hne
          | cons q ps' => simpa [lastRank] using hL
        · right; exact hR

/-- In a successful run containing a pseudo-element call, the
pseudo-element is necessarily the last part: no call at all succeeds on
a state whose order is 6. -/
theorem runParts_high_six : ∀ (ps : List Part) (s t : SelState),
    runParts s ps = .ok t → hasRank 6 ps = true → lastRank ps = some 6 := by
  intro ps
  induction ps with
  | nil => intro s t h hh; simp [hasRank] at hh
  | cons p ps ih =>
      intro s t h hh
      obtain ⟨u, hu, hr⟩ := runParts_cons_ok h
      by_cases hp : rank p = 6
      · cases ps with
        | nil => simp [lastRank, hp]
        | cons q ps' =>
            exfalso
            obtain ⟨w, hw, _⟩ := runParts_cons_ok hr
            have hupe : 1 ≤ u.pseodoEl := by
              have he := (applyPart_ok hu).2.2.2.2.1
              rw [he, if_pos hp]
              omega
            have huord : u.order = some 6 := by
              have := (applyPart_ok hu).1
              rw [this, hp]
            have h6le : 6 ≤ rank q := (applyPart_ok hw).2.2.2.2.2.1 6 huord
            have hq6 : rank q = 6 := le_antisymm (rank_le_six q) h6le
            have hz := (applyPart_ok hw).2.2.2.2.2.2.2.2 hq6
            omega
      · have hh' : hasRank 6 ps = true := by
          simp only [hasRank, List.any_cons, Bool.or_eq_true, beq_iff_eq] at hh ⊢
          rcases hh with h1 | h2
          · exact absurd h1 hp
          · exact h2
        have hne : ps ≠ [] := by
          intro heq
          rw [heq] at hh'
          simp [hasRank] at hh'
        cases ps with
        | nil => exact absurd rfl hne
        | cons q ps' => simpa [lastRank] using ih u t hr hh'

/-- Counting parts of a given rank, cons case. -/
theorem countRank_cons (n : Nat) (p : Part) (ps : List Part) :
    countRank n (p :: ps) = (if rank p = n then 1 else 0) + countRank n ps := by
  by_cases h : rank p = n
  · simp [countRank, List.countP_cons, h, Nat.add_comm]
  · simp [countRank, List.countP_cons, h]

/-- The singleton bound survives dropping the first part. -/
theorem singletonsOK_tail {p : Part} {ps : List Part}
    (h : singletonsOK (p :: ps) = true) : singletonsOK ps = true := by
  simp only [singletonsOK, Bool.and_eq_true, decide_eq_true_eq] at h ⊢
  obtain ⟨⟨h1, h2⟩, h6⟩ := h
  rw [countRank_cons] at h1 h2 h6
  refine ⟨⟨?_, ?_⟩, ?_⟩ <;> omega

/-- Unpacks the singleton bound into its three counts. -/
theorem singletonsOK_spec {ps : List Part} (h : singletonsOK ps = true) :
    countRank 1 ps ≤ 1 ∧ countRank 2 ps ≤ 1 ∧ countRank 6 ps ≤ 1 := by
  simp only [singletonsOK, Bool.and_eq_true, decide_eq_true_eq] at h
  exact ⟨h.1.1, h.1.2, h.2⟩

/-- Two leading parts of the same rank already exceed a singleton count
of one. -/
theorem singleton_not_both {p q : Part} {ps' : List Part} {n : Nat}
    (h : countRank n (p :: q :: ps') ≤ 1) (hp : rank p = n) (hq : rank q = n) : False := by
  rw [countRank_cons, countRank_cons, if_pos hp, if_pos hq] at h
  omega

/-- Assembles acceptance of a part from the order test and the three
singleton counters. -/
theorem fits_of (u : SelState) (q : Part)
    (ho : orderFits u (rank q) = true)
    (h1 : rank q = 1 → u.elementNum = 0)
    (h2 : rank q = 2 → u.idNum = 0)
    (h6 : rank q = 6 → u.pseodoEl = 0) : fits u q = true := by
  cases q with
  | element v =>
      simp only [fits, Bool.and_eq_true, beq_iff_eq]
      exact ⟨ho, h1 rfl⟩
  | id v =>
      simp only [fits, Bool.and_eq_true, beq_iff_eq]
      exact ⟨ho, h2 rfl⟩
  | cls v => simpa [fits, rank] using ho
  | attr v => simpa [fits, rank] using ho
  | pseudoClass v => simpa [fits, rank] using ho
  | pseudoElement v =>
      simp only [fits, Bool.and_eq_true, beq_iff_eq]
      exact ⟨ho, h6 rfl⟩

/-- An accepted part call succeeds. -/
theorem applyPart_fits {s : SelState} {p : Part} (h : fits s p = true) :
    ∃ t, applyPart s p = .ok t := by
  cases p with
  | element v =>
      simp only [fits, Bool.and_eq_true, beq_iff_eq] at h
      obtain ⟨h1, h2⟩ := h
      have hc : checkOrder s 1 = .ok () := by
        refine (checkOrder_ok_iff s 1).2 fun r hr => ?_
        unfold orderFits at h1
        rw [hr] at h1
        simpa using h1
      refine ⟨⟨s.string ++ v, some 1, s.elementNum + 1, 0, 0⟩, ?_⟩
      simp [applyPart, element, hc, h2]
  | id v =>
      simp only [fits, Bool.and_eq_true, beq_iff_eq] at h
      obtain ⟨h1, h2⟩ := h
      have hc : checkOrder s 2 = .ok () := by
        refine (checkOrder_ok_iff s 2).2 fun r hr => ?_
        unfold orderFits at h1
        rw [hr] at h1
        simpa using h1
      refine ⟨⟨s.string ++ "#" ++ v, some 2, 0, s.idNum + 1, 0⟩, ?_⟩
      simp [applyPart, ObjTasks.id, hc, h2]
  | cls v =>
      simp only [fits] at h
      have hc : checkOrder s 3 = .ok () := by
        refine (checkOrder_ok_iff s 3).2 fun r hr => ?_
        unfold orderFits at h
        rw [hr] at h
        simpa using h
      refine ⟨⟨s.string ++ "." ++ v, some 3, 0, 0, 0⟩, ?_⟩
      simp [applyPart, cls, hc]
  | attr v =>
      simp only [fits] at h
      have hc : checkOrder s 4 = .ok () := by
        refine (checkOrder_ok_iff s 4).2 fun r hr => ?_
        unfold orderFits at h
        rw [hr] at h
        simpa using h
      refine ⟨⟨s.string ++ "[" ++ v ++ "]", some 4, 0, 0, 0⟩, ?_⟩
      simp [applyPart, attr, hc]
  | pseudoClass v =>
      simp only [fits] at h
      have hc : checkOrder s 5 = .ok () := by
        refine (checkOrder_ok_iff s 5).2 fun r hr => ?_
        unfold orderFits at h
        rw [hr] at h
        simpa using h
      refine ⟨⟨s.string ++ ":" ++ v, some 5, 0, 0, 0⟩, ?_⟩
      simp [applyPart, pseudoClass, hc]
  | pseudoElement v =>
      simp only [fits, Bool.and_eq_true, beq_iff_eq] at h
      obtain ⟨h1, h2⟩ := h
      have hc : checkOrder s 6 = .ok () := by
        refine (checkOrder_ok_iff s 6).2 fun r hr => ?_
        unfold orderFits at h1
        rw [hr] at h1
        simpa using h1
      refine ⟨⟨s.string ++ "::" ++ v, some 6, 0, 0, s.pseodoEl + 1⟩, ?_⟩
      simp [applyPart, pseudoElement, hc, h2]

/-- A chain of non-decreasing ranks with each singleton kind at most
once runs to completion from any state that accepts its first part, and
appends exactly its fragments. -/
theorem runParts_fits : ∀ (ps : List Part) (s : SelState),
    ranksMono ps = true → singletonsOK ps = true → headOK s ps = true →
    ∃ t, runParts s ps = .ok t ∧ t.string = s.string ++ selText ps := by
  intro ps
  induction ps with
  | nil =>
      intro s _ _ _
      exact ⟨s, rfl, by simp [selText]⟩
  | cons p ps ih =>
      intro s hm hs hh
      have hf : fits s p = true := by simpa [headOK] using hh
      obtain ⟨u, hu⟩ := applyPart_fits hf
      have hm' : ranksMono ps = true := by
        cases ps with
        | nil => rfl
        | cons q ps' =>
            simp only [ranksMono, Bool.and_eq_true, decide_eq_true_eq] at hm
            exact hm.2
      have hs' : singletonsOK ps = true := singletonsOK_tail hs
      have hh' : headOK u ps = true := by
        cases ps with
        | nil => rfl
        | cons q ps' =>
            have hshape := applyPart_ok hu
            have hpq : rank p ≤ rank q := by
              simp only [ranksMono, Bool.and_eq_true, decide_eq_true_eq] at hm
              exact hm.1
            have hof : orderFits u (rank q) = true := by
              unfold orderFits
              rw [hshape.1]
              exact decide_eq_true hpq
            have hcounts := singletonsOK_spec hs
            have hfq : fits u q = true := by
              refine fits_of u q hof ?_ ?_ ?_
              · intro hq1
                rw [hshape.2.2.1]
                by_cases hp1 : rank p = 1
                · exact (singleton_not_both hcounts.1 hp1 hq1).elim
                · rw [if_neg hp1]
              · intro hq2
                rw [hshape.2.2.2.1]
                by_cases hp2 : rank p = 2
                · exact (singleton_not_both hcounts.2.1 hp2 hq2).elim
                · rw [if_neg hp2]
              · intro hq6
                rw [hshape.2.2.2.2.1]
                by_cases hp6 : rank p = 6
                · exact (singleton_not_both hcounts.2.2 hp6 hq6).elim
                · rw [if_neg hp6]
            simpa [headOK] using hfq
      obtain ⟨t, ht, hstr⟩ := ih u hm' hs' hh'
      refine ⟨t, ?_, ?_⟩
      · simp only [runParts, hu]
        exact ht
      · simp only [selText]
        rw [hstr, (applyPart_ok hu).2.1, String.append_assoc]

/-- Every part is accepted on the fresh base builder. -/
theorem headOK_base (ps : List Part) : headOK cssSelectorBuilder ps = true := by
  cases ps with
  | nil => rfl
  | cons p ps => cases p <;> rfl

/-- Every part is accepted on a combine result: it has no order and zero
counters, like the base. -/
theorem headOK_combine (s1 : SelState) (c : String) (s2 : SelState) (ps : List Part) :
    headOK (combine s1 c s2) ps = true := by
  cases ps with
  | nil => rfl
  | cons p ps => cases p <;> rfl

/-- Claim C1, counterexample: after element then class, a second element
call raises the ordering error, not the duplicate error, so a second
invocation of a singleton kind does NOT raise DuplicatePart regardless
of interleaving. -/
theorem c1_counterexample :
    runParts cssSelectorBuilder [Part.element "a", Part.cls "c", Part.element "b"] =
      .error SelError.orderViolation ∧
    SelError.orderViolation ≠ SelError.duplicatePart :=
  ⟨rfl, by decide⟩

/-- Claim C1, amended: invoking a singleton kind a second time in a
lineage always raises an error, but its kind depends on interleaving:
DuplicatePart when the second call immediately follows the first (the
counters survive only on the directly produced state), OrderViolation
when other part calls are interleaved; for pseudoElement no successful
interleaving exists, so its repeat always raises DuplicatePart. -/
theorem c1_singleton_repeat (ps : List Part) (s : SelState) (v : String)
    (h : runParts cssSelectorBuilder ps = .ok s) :
    (hasRank 1 ps = true →
      element s v =
        .error (if lastRank ps = some 1 then SelError.duplicatePart else SelError.orderViolation)) ∧
    (hasRank 2 ps = true →
      ObjTasks.id s v =
        .error (if lastRank ps = some 2 then SelError.duplicatePart else SelError.orderViolation)) ∧
    (hasRank 6 ps = true →
      pseudoElement s v = .error SelError.duplicatePart) := by
  refine ⟨?_, ?_, ?_⟩
  · intro hh
    by_cases hl : lastRank ps = some 1
    · rw [if_pos hl]
      obtain ⟨ho, he, _, _⟩ := runParts_last ps cssSelectorBuilder s 1 h hl
      refine element_dup v ?_ ?_
      · refine (checkOrder_ok_iff s 1).2 fun r hr => ?_
        rw [ho] at hr
        have := Option.some.inj hr
        omega
      · rw [he]; simp
    · rw [if_neg hl]
      rcases runParts_high_one ps cssSelectorBuilder s h hh with hL | ⟨r, hr, h2⟩
      · exact absurd hL hl
      · have hv : applyPart s (Part.element v) = .error .orderViolation :=
          applyPart_orderViolation (Part.element v) hr (by simp [rank]; omega)
        simpa [applyPart] using hv
  · intro hh
    by_cases hl : lastRank ps = some 2
    · rw [if_pos hl]
      obtain ⟨ho, _, hi, _⟩ := runParts_last ps cssSelectorBuilder s 2 h hl
      refine id_dup v ?_ ?_
      · refine (checkOrder_ok_iff s 2).2 fun r hr => ?_
        rw [ho] at hr
        have := Option.some.inj hr
        omega
      · rw [hi]; simp
    · rw [if_neg hl]
      rcases runParts_high_two ps cssSelectorBuilder s h hh with hL | ⟨r, hr, h3⟩
      · exact absurd hL hl
      · have hv : applyPart s (Part.id v) = .error .orderViolation :=
          applyPart_orderViolation (Part.id v) hr (by simp [rank]; omega)
        simpa [applyPart] using hv
  · intro hh
    have hl := runParts_high_six ps cssSelectorBuilder s h hh
    obtain ⟨ho, _, _, hp⟩ := runParts_last ps cssSelectorBuilder s 6 h hl
    refine pseudoElement_dup v ?_ ?_
    · refine (checkOrder_ok_iff s 6).2 fun r hr => ?_
      rw [ho] at hr
      have := Option.some.inj hr
      omega
    · rw [hp]; simp

/-- Witness for the amended C1 at a concrete lineage of one element. -/
theorem c1_singleton_repeat_witness :
    element ⟨"a", some 1, 1, 0, 0⟩ "b" = .error SelError.duplicatePart := by
  have h := (c1_singleton_repeat [Part.element "a"] ⟨"a", some 1, 1, 0, 0⟩ "b" rfl).1 (by decide)
  simpa [lastRank, rank] using h

/-- Claim C2: every chain of non-decreasing rank with each singleton at
most once succeeds from the base builder and stringifies to the
accumulated text; any call of rank strictly below the rank of the last
added part raises the ordering error; equal rank passes the order
check. -/
theorem c2_order_property :
    (∀ ps, ranksMono ps = true → singletonsOK ps = true →
      ∃ t, runParts cssSelectorBuilder ps = .ok t ∧ stringify t = selText ps) ∧
    (∀ ps s p n, runParts cssSelectorBuilder ps = .ok s → lastRank ps = some n →
      rank p < n → applyPart s p = .error SelError.orderViolation) ∧
    (∀ ps s p n, runParts cssSelectorBuilder ps = .ok s → lastRank ps = some n →
      rank p = n → checkOrder s (rank p) = .ok ()) := by
  refine ⟨?_, ?_, ?_⟩
  · intro ps hm hs
    obtain ⟨t, ht, hstr⟩ := runParts_fits ps cssSelectorBuilder hm hs (headOK_base ps)
    refine ⟨t, ht, ?_⟩
    rw [stringify, hstr]
    exact String.empty_append _
  · intro ps s p n h hl hlt
    exact applyPart_orderViolation p (runParts_last ps cssSelectorBuilder s n h hl).1 hlt
  · intro ps s p n h hl heq
    refine (checkOrder_ok_iff s (rank p)).2 fun r hr => ?_
    have ho := (runParts_last ps cssSelectorBuilder s n h hl).1
    rw [ho] at hr
    have := Option.some.inj hr
    omega

/-- Witness for C2 at concrete chains. -/
theorem c2_order_property_witness :
    (∃ t, runParts cssSelectorBuilder [Part.element "a", Part.id "b"] = .ok t ∧
      stringify t = selText [Part.element "a", Part.id "b"]) ∧
    applyPart ⟨"a.c", some 3, 0, 0, 0⟩ (Part.id "x") = .error SelError.orderViolation :=
  ⟨c2_order_property.1 [Part.element "a", Part.id "b"] (by decide) (by decide),
   c2_order_property.2.1 [Part.element "a", Part.cls "c"] ⟨"a.c", some 3, 0, 0, 0⟩
     (Part.id "x") 3 rfl rfl (by decide)⟩

/-- Claim C3: no part call mutates the state it is invoked on (each
method of the source assigns only to the freshly created object, so it
is a pure function of the receiver); two continuations branched off the
same intermediate builder are independent: each branch's output is the
shared prefix followed by that branch's own fragments only. -/
theorem c3_branch_independence (s : SelState) (ps1 ps2 : List Part) (t1 t2 : SelState)
    (h1 : runParts s ps1 = .ok t1) (h2 : runParts s ps2 = .ok t2) :
    stringify t1 = stringify s ++ selText ps1 ∧
    stringify t2 = stringify s ++ selText ps2 :=
  ⟨runParts_string ps1 s t1 h1, runParts_string ps2 s t2 h2⟩

/-- Witness for C3: two class branches off the same element state. -/
theorem c3_branch_independence_witness :
    stringify ⟨"a.x", some 3, 0, 0, 0⟩ = stringify ⟨"a", some 1, 1, 0, 0⟩ ++ selText [Part.cls "x"] ∧
    stringify ⟨"a.y", some 3, 0, 0, 0⟩ = stringify ⟨"a", some 1, 1, 0, 0⟩ ++ selText [Part.cls "y"] :=
  c3_branch_independence ⟨"a", some 1, 1, 0, 0⟩ [Part.cls "x"] [Part.cls "y"]
    ⟨"a.x", some 3, 0, 0, 0⟩ ⟨"a.y", some 3, 0, 0, 0⟩ rfl rfl

/-- Claim C4: calling the same singleton kind twice in immediate
succession raises DuplicatePart (the order check passes on equal rank,
the bumped counter exceeds 1); in particular pseudoElement right after
pseudoElement raises DuplicatePart, not OrderViolation. -/
theorem c4_immediate_repeat (s t : SelState) (v w : String) :
    (element s v = .ok t → element t w = .error SelError.duplicatePart) ∧
    (ObjTasks.id s v = .ok t → ObjTasks.id t w = .error SelError.duplicatePart) ∧
    (pseudoElement s v = .ok t → pseudoElement t w = .error SelError.duplicatePart) := by
  refine ⟨?_, ?_, ?_⟩
  · intro h
    have hs := applyPart_ok (p := Part.element v) (t := t) (by simpa [applyPart] using h)
    refine element_dup w ?_ ?_
    · refine (checkOrder_ok_iff t 1).2 fun r hr => ?_
      rw [hs.1] at hr
      have := Option.some.inj hr
      simp [rank] at this
      omega
    · rw [hs.2.2.1]
      simp [rank]
  · intro h
    have hs := applyPart_ok (p := Part.id v) (t := t) (by simpa [applyPart] using h)
    refine id_dup w ?_ ?_
    · refine (checkOrder_ok_iff t 2).2 fun r hr => ?_
      rw [hs.1] at hr
      have := Option.some.inj hr
      simp [rank] at this
      omega
    · rw [hs.2.2.2.1]
      simp [rank]
  · intro h
    have hs := applyPart_ok (p := Part.pseudoElement v) (t := t) (by simpa [applyPart] using h)
    refine pseudoElement_dup w ?_ ?_
    · refine (checkOrder_ok_iff t 6).2 fun r hr => ?_
      rw [hs.1] at hr
      have := Option.some.inj hr
      simp [rank] at this
      omega
    · rw [hs.2.2.2.2.1]
      simp [rank]

/-- Witness for C4: a repeated id right after a first id. -/
theorem c4_immediate_repeat_witness :
    ObjTasks.id ⟨"#m", some 2, 0, 1, 0⟩ "n" = .error SelError.duplicatePart :=
  (c4_immediate_repeat cssSelectorBuilder ⟨"#m", some 2, 0, 1, 0⟩ "m" "n").2.1 rfl

/-- Claim C5: combine joins the two texts with single spaces around the
combinator; in the pure embedding neither argument is modified. -/
theorem c5_combine (A : SelState) (c : String) (B : SelState) :
    stringify (combine A c B) = stringify A ++ " " ++ c ++ " " ++ stringify B :=
  rfl

/-- Claim C6: each successful part call appends its value with its
documented prefix, and the two documented example chains stringify as
stated. -/
theorem c6_prefixes :
    (∀ s v t, element s v = .ok t → stringify t = stringify s ++ v) ∧
    (∀ s v t, ObjTasks.id s v = .ok t → stringify t = stringify s ++ "#" ++ v) ∧
    (∀ s v t, cls s v = .ok t → stringify t = stringify s ++ "." ++ v) ∧
    (∀ s v t, attr s v = .ok t → stringify t = stringify s ++ "[" ++ v ++ "]") ∧
    (∀ s v t, pseudoClass s v = .ok t → stringify t = stringify s ++ ":" ++ v) ∧
    (∀ s v t, pseudoElement s v = .ok t → stringify t = stringify s ++ "::" ++ v) ∧
    (runParts cssSelectorBuilder [Part.id "main", Part.cls "container", Part.cls "editable"]).map
      stringify = .ok "#main.container.editable" ∧
    (runParts cssSelectorBuilder
      [Part.element "a", Part.attr "href$=\".png\"", Part.pseudoClass "focus"]).map
      stringify = .ok "a[href$=\".png\"]:focus" := by
  refine ⟨?_, ?_, ?_, ?_, ?_, ?_, rfl, rfl⟩
  · intro s v t h
    have := (applyPart_ok (p := Part.element v) (t := t) (by simpa [applyPart] using h)).2.1
    simpa [stringify, partText, String.append_assoc] using this
  · intro s v t h
    have := (applyPart_ok (p := Part.id v) (t := t) (by simpa [applyPart] using h)).2.1
    simpa [stringify, partText, String.append_assoc] using this
  · intro s v t h
    have := (applyPart_ok (p := Part.cls v) (t := t) (by simpa [applyPart] using h)).2.1
    simpa [stringify, partText, String.append_assoc] using this
  · intro s v t h
    have := (applyPart_ok (p := Part.attr v) (t := t) (by simpa [applyPart] using h)).2.1
    simpa [stringify, partText, String.append_assoc] using this
  · intro s v t h
    have := (applyPart_ok (p := Part.pseudoClass v) (t := t) (by simpa [applyPart] using h)).2.1
    simpa [stringify, partText, String.append_assoc] using this
  · intro s v t h
    have := (applyPart_ok (p := Part.pseudoElement v) (t := t) (by simpa [applyPart] using h)).2.1
    simpa [stringify, partText, String.append_assoc] using this

/-- Witness for C6: element appends its value verbatim. -/
theorem c6_prefixes_witness :
    stringify ⟨"ax", some 1, 1, 0, 0⟩ = stringify ⟨"a", none, 0, 0, 0⟩ ++ "x" :=
  c6_prefixes.1 ⟨"a", none, 0, 0, 0⟩ "x" ⟨"ax", some 1, 1, 0, 0⟩ rfl

/-- Claim C7: fromJSON on a parseable object text yields an object whose
own fields are exactly the parsed fields, with lookups falling back to
the prototype and without copying the prototype's own fields; a parse
failure propagates to the caller.  The host JSON.parse builtin is
abstracted as the parse parameter. -/
theorem c7_fromJSON :
    (∀ (α : Type) (parse : String → Except String (List (String × α)))
        (proto : List (String × α)) (json : String) (fields : List (String × α)),
      parse json = .ok fields →
        fromJSON parse proto json = .ok ⟨fields, proto⟩ ∧
        (∀ k v, fields.lookup k = some v → (JsObject.mk fields proto).get k = some v) ∧
        (∀ k, fields.lookup k = none → (JsObject.mk fields proto).get k = proto.lookup k)) ∧
    (∀ (α : Type) (parse : String → Except String (List (String × α)))
        (proto : List (String × α)) (json : String) (e : String),
      parse json = .error e → fromJSON parse proto json = .error e) := by
  constructor
  · intro α parse proto json fields h
    refine ⟨by simp [fromJSON, h], ?_, ?_⟩
    · intro k v hk
      simp [JsObject.get, hk]
    · intro k hk
      simp [JsObject.get, hk]
  · intro α parse proto json e h
    simp [fromJSON, h]

/-- Witness for C7: a concrete parse of a radius field with a prototype
carrying a method slot. -/
theorem c7_fromJSON_witness :
    fromJSON (fun s => if s = "radius:10" then Except.ok [("radius", (10 : Int))]
        else Except.error "bad")
      [("getArea", (0 : Int))] "radius:10" = .ok ⟨[("radius", 10)], [("getArea", 0)]⟩ ∧
    (JsObject.mk [("radius", (10 : Int))] [("getArea", (0 : Int))]).get "radius" = some 10 ∧
    (JsObject.mk [("radius", (10 : Int))] [("getArea", (0 : Int))]).get "getArea" = some 0 := by
  have h := c7_fromJSON.1 Int
    (fun s => if s = "radius:10" then Except.ok [("radius", (10 : Int))] else Except.error "bad")
    [("getArea", (0 : Int))] "radius:10" [("radius", (10 : Int))] (by simp)
  exact ⟨h.1, h.2.1 "radius" 10 rfl, (h.2.2 "getArea" rfl).trans rfl⟩

/-- Claim C8: a rectangle built from w and h exposes width w, height h
and getArea w * h, and the area is recomputed from the current fields on
every call, so later field assignments are reflected. -/
theorem c8_rectangle :
    (∀ w h : Int, (Rectangle.mk w h).width = w ∧ (Rectangle.mk w h).height = h ∧
      (Rectangle.mk w h).getArea = w * h) ∧
    (∀ (r : Rectangle) (w : Int), (r.setWidth w).getArea = w * r.height) ∧
    (∀ (r : Rectangle) (h : Int), (r.setHeight h).getArea = r.width * h) :=
  ⟨fun _ _ => ⟨rfl, rfl, rfl⟩, fun _ _ => rfl, fun _ _ => rfl⟩

/-- Claim C9: along every successful lineage the order equals the rank
of the last added part and never decreases, the singleton counters stay
at most 1, and a call violating either constraint raises and returns no
state. -/
theorem c9_invariants :
    (∀ ps s p t, runParts cssSelectorBuilder ps = .ok s → applyPart s p = .ok t →
      t.order = some (rank p) ∧ (∀ r, s.order = some r → r ≤ rank p) ∧
      t.elementNum ≤ 1 ∧ t.idNum ≤ 1 ∧ t.pseodoEl ≤ 1) ∧
    (∀ ps s n, runParts cssSelectorBuilder ps = .ok s → lastRank ps = some n →
      s.order = some n) ∧
    (cssSelectorBuilder.elementNum ≤ 1 ∧ cssSelectorBuilder.idNum ≤ 1 ∧
      cssSelectorBuilder.pseodoEl ≤ 1) ∧
    (∀ s p r, s.order = some r → rank p < r → ∃ e, applyPart s p = .error e) ∧
    (∀ s v, 1 ≤ s.elementNum → ∃ e, element s v = .error e) ∧
    (∀ s v, 1 ≤ s.idNum → ∃ e, ObjTasks.id s v = .error e) ∧
    (∀ s v, 1 ≤ s.pseodoEl → ∃ e, pseudoElement s v = .error e) := by
  refine ⟨?_, ?_, ⟨by decide, by decide, by decide⟩, ?_, ?_, ?_, ?_⟩
  · intro ps s p t _ ht
    obtain ⟨h1, _, h3, h4, h5, h6, h7, h8, h9⟩ := applyPart_ok ht
    refine ⟨h1, h6, ?_, ?_, ?_⟩
    · rw [h3]
      by_cases e1 : rank p = 1
      · rw [if_pos e1, h7 e1]
      · rw [if_neg e1]; omega
    · rw [h4]
      by_cases e2 : rank p = 2
      · rw [if_pos e2, h8 e2]
      · rw [if_neg e2]; omega
    · rw [h5]
      by_cases e6 : rank p = 6
      · rw [if_pos e6, h9 e6]
      · rw [if_neg e6]; omega
  · intro ps s n h hl
    exact (runParts_last ps cssSelectorBuilder s n h hl).1
  · intro s p r ho hr
    exact ⟨.orderViolation, applyPart_orderViolation p ho hr⟩
  · intro s v hc
    rcases ho : checkOrder s 1 with e | u
    · exact ⟨e, by simp [element, ho]⟩
    · cases u
      exact ⟨.duplicatePart, element_dup v ho hc⟩
  · intro s v hc
    rcases ho : checkOrder s 2 with e | u
    · exact ⟨e, by simp [ObjTasks.id, ho]⟩
    · cases u
      exact ⟨.duplicatePart, id_dup v ho hc⟩
  · intro s v hc
    rcases ho : checkOrder s 6 with e | u
    · exact ⟨e, by simp [pseudoElement, ho]⟩
    · cases u
      exact ⟨.duplicatePart, pseudoElement_dup v ho hc⟩

/-- Witness for C9 at concrete states. -/
theorem c9_invariants_witness :
    (⟨"x", some 1, 1, 0, 0⟩ : SelState).order = some (rank (Part.element "x")) ∧
    (∃ e, applyPart ⟨".c", some 3, 0, 0, 0⟩ (Part.id "z") = .error e) :=
  ⟨(c9_invariants.1 [] cssSelectorBuilder (Part.element "x") ⟨"x", some 1, 1, 0, 0⟩ rfl rfl).1,
   c9_invariants.2.2.2.1 ⟨".c", some 3, 0, 0, 0⟩ (Part.id "z") 3 rfl (by decide)⟩

/-- Claim C10: on the fresh base builder, and on any combine result, a
first call of any of the six part kinds succeeds, and the fresh base
stringifies to the empty string. -/
theorem c10_fresh_first_call :
    (∀ p, ∃ t, applyPart cssSelectorBuilder p = .ok t) ∧
    (∀ s1 c s2 p, ∃ t, applyPart (combine s1 c s2) p = .ok t) ∧
    stringify cssSelectorBuilder = "" := by
  refine ⟨?_, ?_, rfl⟩
  · intro p
    refine applyPart_fits ?_
    have := headOK_base [p]
    simpa [headOK] using this
  · intro s1 c s2 p
    refine applyPart_fits ?_
    have := headOK_combine s1 c s2 [p]
    simpa [headOK] using this

end ObjTasks
